import Mathlib

/-!
Shallow embedding of the fact-extraction pipeline of the
`fish-facts-and-data` repository (TypeScript), covering:

* `src/scripts/utils/text.ts` — `secondsToHHMMSS`, `sanitizeCsvText`,
  `extractJson`;
* `src/scripts/utils/schemas.ts` — the Zod `EpisodeSchema` with its
  `superRefine` business rules;
* `src/scripts/process-episodes.ts` — episode classification;
* the synchronous extractor (`extract-facts.ts`) — `TokenTracker`,
  `extractFactsFromEpisode` retry loop, `prepareVttFile` idempotency gate,
  `extractFactsFromVtt` driver loop;
* the batch extractor — `createBatchRequest` response schema,
  `waitForBatchCompletion` polling loop.

Strings are modelled as `List Char` where character-level processing
matters; external effects (filesystem, network, the JSON parser of the
JavaScript runtime, the subtitle parser library) are passed in as explicit
oracle parameters, while every piece of logic belonging to the repository
itself is translated directly from the source.
-/

/-- Backtick character (code point 96), written via `Char.ofNat`. -/
def btick : Char := Char.ofNat 96

/-- Left curly brace character (code point 123). -/
def lbraceChar : Char := Char.ofNat 123

/-- Right curly brace character (code point 125). -/
def rbraceChar : Char := Char.ofNat 125

/-- The JavaScript regex `\s` character class (WhiteSpace ∪ LineTerminator):
space, tab, LF, VT, FF, CR, NBSP, and the Unicode space separators used by
JavaScript engines.  Used by `sanitizeCsvText`'s `/\s+/g` and the fenced
code block regex of `extractJson`. -/
def jsWhitespace (c : Char) : Bool :=
  c = ' ' ∨ c = '\t' ∨ c = '\n' ∨ c = Char.ofNat 0x0b ∨ c = Char.ofNat 0x0c ∨
  c = '\r' ∨ c = Char.ofNat 0xa0 ∨ c = Char.ofNat 0x1680 ∨
  (Char.ofNat 0x2000 ≤ c ∧ c ≤ Char.ofNat 0x200a) ∨
  c = Char.ofNat 0x2028 ∨ c = Char.ofNat 0x2029 ∨ c = Char.ofNat 0x202f ∨
  c = Char.ofNat 0x205f ∨ c = Char.ofNat 0x3000 ∨ c = Char.ofNat 0xfeff

/-- `text.replace(/\s+/g, " ")`: every maximal run of `\s` characters is
replaced by a single space.  The boolean flag records whether we are
currently inside a whitespace run whose single replacement space has
already been emitted. -/
def collapseWsAux : List Char → Bool → List Char
  | [], _ => []
  | c :: rest, inRun =>
    if jsWhitespace c then
      if inRun then collapseWsAux rest true
      else ' ' :: collapseWsAux rest true
    else c :: collapseWsAux rest false

/-- `text.replace(/\s+/g, " ")` on a character list. -/
def collapseWs (cs : List Char) : List Char := collapseWsAux cs false

/-- `String.prototype.trim()`: strip whitespace from both ends. -/
def trimWs (cs : List Char) : List Char :=
  ((cs.dropWhile jsWhitespace).reverse.dropWhile jsWhitespace).reverse

/-- `sanitizeCsvText` from `text.ts`:
`text.replace(/\s+/g, " ").trim()`. -/
def sanitizeCsvText (cs : List Char) : List Char := trimWs (collapseWs cs)

/-- `String(n)` for a natural number: decimal digits. -/
def natChars (n : ℕ) : List Char := (Nat.repr n).data

/-- `.padStart(2, "0")`: left-pad with zeros to length 2. -/
def padStart2 (l : List Char) : List Char :=
  if 2 ≤ l.length then l else List.replicate (2 - l.length) '0' ++ l

/-- `secondsToHHMMSS` from `text.ts`:
`total = Math.max(0, Math.floor(s))`, then `HH:MM:SS` with each component
`String(...).padStart(2, "0")`.  The input is the (possibly fractional)
seconds value, modelled as a rational. -/
def secondsToHHMMSS (s : ℚ) : List Char :=
  let total : ℕ := (max 0 s.floor).toNat
  padStart2 (natChars (total / 3600)) ++ ':' ::
    (padStart2 (natChars ((total % 3600) / 60)) ++ ':' ::
      padStart2 (natChars (total % 60)))

/-- Does the character list begin with three backticks? -/
def isFenceHead (l : List Char) : Bool :=
  match l with
  | a :: b :: c :: _ => a = btick ∧ b = btick ∧ c = btick
  | _ => false

/-- Consume an optional case-insensitive `json` tag, as the regex group
`(?:json)?` (the whole regex carries the `i` flag). -/
def stripJsonTag (l : List Char) : List Char :=
  match l with
  | a :: b :: c :: d :: rest =>
    if a.toLower = 'j' ∧ b.toLower = 's' ∧ c.toLower = 'o' ∧ d.toLower = 'n'
    then rest else l
  | _ => l

/-- Characters strictly before the first occurrence of three consecutive
backticks; `none` when no closing fence exists.  This is the lazy capture
group `([\s\S]*?)` followed by the closing fence. -/
def fenceCapture : List Char → Option (List Char)
  | [] => none
  | c :: rest =>
    if isFenceHead (c :: rest) then some []
    else (fenceCapture rest).map (c :: ·)

/-- After an opening fence: `(?:json)?\s*` then the lazy capture up to the
closing fence. -/
def fenceInterior (afterOpen : List Char) : Option (List Char) :=
  fenceCapture ((stripJsonTag afterOpen).dropWhile jsWhitespace)

/-- `text.match(/```(?:json)?\s*([\s\S]*?)```/i)`: leftmost match; the
returned value is capture group 1.  Starting positions are tried left to
right, exactly as the regex engine does. -/
def findFencedBlock : List Char → Option (List Char)
  | [] => none
  | c :: rest =>
    if isFenceHead (c :: rest) then
      match fenceInterior (rest.drop 2) with
      | some cap => some cap
      | none => findFencedBlock rest
    else findFencedBlock rest

/-- `start = text.indexOf("{"); end = text.lastIndexOf("}")`; when
`start >= 0 && end > start`, the slice `text.slice(start, end + 1)`. -/
def braceSlice (l : List Char) : Option (List Char) :=
  match l.findIdx? (· = lbraceChar), l.reverse.findIdx? (· = rbraceChar) with
  | some s, some r =>
    let e := l.length - 1 - r
    if s < e then some ((l.drop s).take (e + 1 - s)) else none
  | _, _ => none

/-- Third stage of `extractJson`: try the first-`{`-to-last-`}` slice, else
throw (`Error("Could not parse JSON from model output")`, modelled as
`Except.error ()`).  `jp` is the JavaScript runtime's `JSON.parse`,
external to the repository and therefore an oracle parameter returning
`none` exactly when it would throw. -/
def extractJsonSlice {α : Type} (jp : List Char → Option α) (text : List Char) :
    Except Unit α :=
  match braceSlice text with
  | some seg =>
    match jp seg with
    | some v => .ok v
    | none => .error ()
  | none => .error ()

/-- `extractJson` from `text.ts`: (1) `JSON.parse(text)`; (2) on failure,
find a fenced code block and parse its interior; (3) on failure, parse the
first-`{`-to-last-`}` slice; throw when everything fails. -/
def extractJson {α : Type} (jp : List Char → Option α) (text : List Char) :
    Except Unit α :=
  match jp text with
  | some v => .ok v
  | none =>
    match findFencedBlock text with
    | some inner =>
      match jp inner with
      | some v => .ok v
      | none => extractJsonSlice jp text
    | none => extractJsonSlice jp text

/-! ## JSON values and the Zod `EpisodeSchema` (`utils/schemas.ts`) -/

/-- JSON values, as produced by the JavaScript `JSON.parse`. -/
inductive Json where
  | jnull : Json
  | jbool (b : Bool) : Json
  | jnum (q : ℚ) : Json
  | jstr (s : String) : Json
  | jarr (elems : List Json) : Json
  | jobj (fields : List (String × Json)) : Json

/-- Field access on a JSON object (`none` on non-objects or missing keys). -/
def jsonField (j : Json) (k : String) : Option Json :=
  match j with
  | .jobj fs => List.lookup k fs
  | _ => none

/-- `[0-9]`, the JavaScript regex `\d`. -/
def isDigitChar (c : Char) : Bool := '0' ≤ c ∧ c ≤ '9'

/-- The `StartTimeSchema` regex `^(\d{2}:\d{2}:\d{2}|unknown)$`. -/
def startTimePattern (s : String) : Bool :=
  (match s.data with
   | [a, b, c, d, e, f, g, h] =>
     isDigitChar a && isDigitChar b && (c == ':') && isDigitChar d &&
     isDigitChar e && (f == ':') && isDigitChar g && isDigitChar h
   | _ => false) || (s == "unknown")

/-- A parsed fact (`FactSchema`).  `fact_number` is stored as the integer
value of the JSON number, which `z.number().int().min(1).max(4)` has
checked. -/
structure EpisodeFact where
  fact_number : ℤ
  fact : String
  presenter : String
  guest : Bool
  start_time : String
deriving DecidableEq, Repr

/-- `z.enum(["standard", "compilation", "bonus", "other"])`. -/
inductive EpisodeType where
  | standard | compilation | bonus | other
deriving DecidableEq, Repr

/-- A parsed episode record (`EpisodeSchema`'s object shape). -/
structure Episode where
  episode_number : String
  episode_title : String
  episode_type : EpisodeType
  episode_summary : String
  facts : List EpisodeFact
deriving DecidableEq, Repr

/-- `z.string().min(1)` applied to an optional field value: fails when the
key is missing, not a string, or shorter than 1. -/
def reqNonemptyString (o : Option Json) : Option String :=
  match o with
  | some (.jstr s) => if s.length < 1 then none else some s
  | _ => none

/-- `z.enum(["standard", "compilation", "bonus", "other"])` on an optional
field value. -/
def reqEpisodeType (o : Option Json) : Option EpisodeType :=
  match o with
  | some (.jstr s) =>
    if s = "standard" then some .standard
    else if s = "compilation" then some .compilation
    else if s = "bonus" then some .bonus
    else if s = "other" then some .other
    else none
  | _ => none

/-- `z.number().int().min(1).max(4)` on an optional field value
(`Number.isInteger` is denominator 1). -/
def reqFactNumber (o : Option Json) : Option ℤ :=
  match o with
  | some (.jnum q) => if q.den = 1 ∧ 1 ≤ q ∧ q ≤ 4 then some q.num else none
  | _ => none

/-- `z.boolean()` on an optional field value. -/
def reqBool (o : Option Json) : Option Bool :=
  match o with
  | some (.jbool b) => some b
  | _ => none

/-- `StartTimeSchema` on an optional field value. -/
def reqStartTime (o : Option Json) : Option String :=
  match o with
  | some (.jstr s) => if startTimePattern s then some s else none
  | _ => none

/-- `z.string()` on an optional field value. -/
def reqString (o : Option Json) : Option String :=
  match o with
  | some (.jstr s) => some s
  | _ => none

/-- `FactSchema.parse` on one JSON value (Zod objects reject non-objects,
require every declared key, and strip unknown keys). -/
def decodeFact (j : Json) : Option EpisodeFact :=
  match j with
  | .jobj fs =>
    match reqFactNumber (List.lookup "fact_number" fs),
        reqString (List.lookup "fact" fs),
        reqString (List.lookup "presenter" fs),
        reqBool (List.lookup "guest" fs),
        reqStartTime (List.lookup "start_time" fs) with
    | some n, some fa, some pr, some gu, some st => some ⟨n, fa, pr, gu, st⟩
    | _, _, _, _, _ => none
  | _ => none

/-- Element-wise parse of a JSON array under `FactSchema` (the behavior of
`z.array(FactSchema)`: every element must parse). -/
def decodeFacts : List Json → Option (List EpisodeFact)
  | [] => some []
  | j :: rest =>
    match decodeFact j, decodeFacts rest with
    | some f, some fr => some (f :: fr)
    | _, _ => none

/-- `z.array(FactSchema)` on an optional field value. -/
def reqFacts (o : Option Json) : Option (List EpisodeFact) :=
  match o with
  | some (.jarr xs) => decodeFacts xs
  | _ => none

/-- The object half of `EpisodeSchema.parse`: five declared fields, each
validated; non-objects and missing keys fail. -/
def decodeEpisode (j : Json) : Option Episode :=
  match j with
  | .jobj fs =>
    match reqNonemptyString (List.lookup "episode_number" fs),
        reqNonemptyString (List.lookup "episode_title" fs),
        reqEpisodeType (List.lookup "episode_type" fs),
        reqNonemptyString (List.lookup "episode_summary" fs),
        reqFacts (List.lookup "facts" fs) with
    | some n, some t, some ty, some su, some fa => some ⟨n, t, ty, su, fa⟩
    | _, _, _, _, _ => none
  | _ => none

/-- One issue recorded by `ctx.addIssue` inside `superRefine`. -/
structure ZodIssue where
  path : List String
  message : String
deriving DecidableEq, Repr

/-- The `superRefine` body of `EpisodeSchema`, in source order:
standard episodes need exactly 4 facts; non-standard need 0 or 4; a 4-fact
list must carry `fact_number` 1..4 exactly once (via a JS `Set`, modelled
by `List.dedup`). -/
def refineIssues (e : Episode) : List ZodIssue :=
  (if e.episode_type = .standard then
    (if e.facts.length ≠ 4 then
      [⟨["facts"], "standard episodes must have exactly 4 facts"⟩]
    else [])
  else
    (if ¬(e.facts.length = 0 ∨ e.facts.length = 4) then
      [⟨["facts"], "non-standard episodes must have 0 or 4 facts"⟩]
    else [])) ++
  (if e.facts.length = 4 then
    (let nums := (e.facts.map EpisodeFact.fact_number).dedup
     if ¬(([1, 2, 3, 4] : List ℤ).all (fun n => nums.contains n) ∧
            nums.length = 4) then
      [⟨["facts"], "facts must include fact_number 1..4 exactly once"⟩]
    else [])
  else [])

/-- Outcome of `EpisodeSchema.parse`: structural (object-level) failure,
refinement failure carrying the `superRefine` issues, or success.
Zod only runs refinements once the base object parse has succeeded. -/
inductive ZodResult where
  | invalidShape : ZodResult
  | invalidRefine (issues : List ZodIssue) : ZodResult
  | parsed (e : Episode) : ZodResult
deriving DecidableEq, Repr

/-- `EpisodeSchema.parse` (throwing parse): base object validation, then
`superRefine`. -/
def episodeSchemaParse (j : Json) : ZodResult :=
  match decodeEpisode j with
  | none => .invalidShape
  | some e =>
    match refineIssues e with
    | [] => .parsed e
    | issues => .invalidRefine issues

/-- Key missing, or present but not a non-empty string. -/
def lacksNonemptyString (j : Json) (k : String) : Prop :=
  ∀ s, jsonField j k = some (.jstr s) → s = ""

/-! ## Response JSON schemas sent to the model

`createBatchRequest` (batch extractor) and `extractFactsFromEpisode`
(synchronous extractor) both declare `response_format.json_schema` with
`required: ["episode_type", "episode_summary", "facts"]` and
`additionalProperties: false`. -/

/-- Keys allowed at the top level of both response schemas. -/
def allowedRespKeys : List String := ["episode_type", "episode_summary", "facts"]

/-- Keys of the fact item schema (all required, no additional). -/
def factItemKeys : List String :=
  ["fact_number", "fact", "presenter", "guest", "start_time"]

/-- Conformance to the fact item schema shared by both variants. -/
def conformsFactItem (j : Json) : Bool :=
  match j with
  | .jobj fs =>
    fs.all (fun kv => factItemKeys.contains kv.1) &&
    (match List.lookup "fact_number" fs with
     | some (.jnum q) => decide (q.den = 1 ∧ 1 ≤ q ∧ q ≤ 4)
     | _ => false) &&
    (match List.lookup "fact" fs with
     | some (.jstr _) => true
     | _ => false) &&
    (match List.lookup "presenter" fs with
     | some (.jstr _) => true
     | _ => false) &&
    (match List.lookup "guest" fs with
     | some (.jbool _) => true
     | _ => false) &&
    (match List.lookup "start_time" fs with
     | some (.jstr s) => startTimePattern s
     | _ => false)
  | _ => false

/-- Conformance to the batch variant's response schema: `episode_type` an
enum of the four types, `episode_summary` a string, `facts` an array of at
most 4 items, nothing else. -/
def conformsBatchRespSchema (j : Json) : Bool :=
  match j with
  | .jobj fs =>
    fs.all (fun kv => allowedRespKeys.contains kv.1) &&
    (match List.lookup "episode_type" fs with
     | some (.jstr s) =>
       (s == "standard") || (s == "compilation") || (s == "bonus") ||
         (s == "other")
     | _ => false) &&
    (match List.lookup "episode_summary" fs with
     | some (.jstr _) => true
     | _ => false) &&
    (match List.lookup "facts" fs with
     | some (.jarr xs) => decide (xs.length ≤ 4) && xs.all conformsFactItem
     | _ => false)
  | _ => false

/-- Conformance to the synchronous variant's response schema:
`episode_type` is the constant `standard` and `facts` has exactly 4 items
(`minItems: 4, maxItems: 4`), nothing else. -/
def conformsSyncRespSchema (j : Json) : Bool :=
  match j with
  | .jobj fs =>
    fs.all (fun kv => allowedRespKeys.contains kv.1) &&
    (match List.lookup "episode_type" fs with
     | some (.jstr s) => s == "standard"
     | _ => false) &&
    (match List.lookup "episode_summary" fs with
     | some (.jstr _) => true
     | _ => false) &&
    (match List.lookup "facts" fs with
     | some (.jarr xs) =>
       decide (4 ≤ xs.length) && decide (xs.length ≤ 4) &&
         xs.all conformsFactItem
     | _ => false)
  | _ => false

/-! ## Episode classification (`process-episodes.ts`, lines 189–208) -/

/-- The `itunes` block of episode metadata, with optional fields. -/
structure ItunesMeta where
  episode : Option String
  episodeType : Option String
deriving DecidableEq, Repr

/-- Episode metadata consumed by the classifier: `{title, itunes?}`. -/
structure EpisodeMetadata where
  title : String
  itunes : Option ItunesMeta
deriving DecidableEq, Repr

/-- JavaScript truthiness of an optional string field: missing (`undefined`)
and the empty string are falsy. -/
def optTruthyStr : Option String → Bool
  | some s => s ≠ ""
  | none => false

/-- `/^\d+[.:]/.test(title)`: one or more leading digits followed by `.` or
`:` (the following character class excludes digits, so maximal munch is
equivalent to the regex's backtracking). -/
def titleHasNumber (title : String) : Bool :=
  let ds := title.data.takeWhile isDigitChar
  decide (ds ≠ []) &&
    match title.data.drop ds.length with
    | c :: _ => (c == '.') || (c == ':')
    | [] => false

/-- `title.toLowerCase()` — ASCII-adequate model of JS case folding. -/
def lowerChars (title : String) : List Char := title.data.map Char.toLower

/-- `hay.includes(needle)` on character lists: some suffix of `hay` starts
with `needle`. -/
def containsSeg (needle : List Char) : List Char → Bool
  | [] => needle.isPrefixOf []
  | c :: rest => needle.isPrefixOf (c :: rest) || containsSeg needle rest

/-- `/compilation|^bonus/i.test(title)`. -/
def titleHasCompilationOrBonus (title : String) : Bool :=
  containsSeg "compilation".data (lowerChars title) ||
    "bonus".data.isPrefixOf (lowerChars title)

/-- `title.toLowerCase().includes("compilation")`. -/
def titleIncludesCompilation (title : String) : Bool :=
  containsSeg "compilation".data (lowerChars title)

/-- Episode classification from `process-episodes.ts`:

* `hasEpisodeNumber = metadata.itunes?.episode && metadata.itunes?.episodeType !== "bonus"`;
* `isFullEpisode = metadata.itunes?.episodeType === "full"`;
* `titleHasNumber = /^\d+[.:]/.test(metadata.title)`;
* `titleHasCompilationOrBonus = /compilation|^bonus/i.test(metadata.title)`;
* `isStandard = (hasEpisodeNumber || isFullEpisode || titleHasNumber) && !titleHasCompilationOrBonus`;

standard episodes are queued for extraction, and non-standard ones get
`episode_type` `compilation` / `bonus` / `other` exactly as the ternary at
lines 206–208 computes it. -/
def classifyEpisode (m : EpisodeMetadata) : EpisodeType :=
  let epNum := m.itunes.bind ItunesMeta.episode
  let epType := m.itunes.bind ItunesMeta.episodeType
  let hasEpisodeNumber := optTruthyStr epNum ∧ epType ≠ some "bonus"
  let isFullEpisode := epType = some "full"
  let tHasNumber := titleHasNumber m.title
  let tCompBonus := titleHasCompilationOrBonus m.title
  let isStandard := (hasEpisodeNumber ∨ isFullEpisode ∨ tHasNumber) ∧ ¬tCompBonus
  if isStandard then .standard
  else if epType = some "bonus" then
    (if titleIncludesCompilation m.title then .compilation else .bonus)
  else .other

/-! ## `TokenTracker` (synchronous extractor, `extract-facts.ts`) -/

namespace TokenTracker

/-- One `{timestamp, tokens}` entry of `tokensUsed` (timestamps are
`Date.now()` milliseconds). -/
structure Entry where
  timestamp : ℕ
  tokens : ℕ
deriving DecidableEq, Repr

/-- `safetyMargin = 0.9`. -/
def safetyMargin : ℚ := 9 / 10

/-- The constructor's `this.maxTPM = maxTPM * this.safetyMargin`. -/
def capacityOf (maxTPM : ℕ) : ℚ := maxTPM * safetyMargin

/-- `cleanup()`: keep entries with `timestamp > Date.now() - 60000`
(written additively to avoid truncated subtraction). -/
def cleanup (now : ℕ) (used : List Entry) : List Entry :=
  used.filter (fun t => now < t.timestamp + 60000)

/-- `getUsage()`: total tokens in the trailing window. -/
def getUsage (now : ℕ) (used : List Entry) : ℕ :=
  ((cleanup now used).map Entry.tokens).sum

/-- `canAdd(tokens)`: `getUsage() + tokens <= this.maxTPM`. -/
def canAdd (cap : ℚ) (now : ℕ) (used : List Entry) (tokens : ℕ) : Prop :=
  ((getUsage now used : ℚ) + tokens) ≤ cap

/-- `add(tokens)`: push `{timestamp: Date.now(), tokens}` then `cleanup()`. -/
def add (now : ℕ) (tokens : ℕ) (used : List Entry) : List Entry :=
  cleanup now (used ++ [⟨now, tokens⟩])

/-- A run of `add` events `(now, tokens)` against the tracker state, where
each `add` was honored: `canAdd` held at the moment of the `add` (the loop
in `waitForCapacity` has just observed it true). -/
def HonoredRun (cap : ℚ) : List (ℕ × ℕ) → List Entry → Prop
  | [], _ => True
  | (now, tok) :: rest, st => canAdd cap now st tok ∧ HonoredRun cap rest (add now tok st)

/-- Event timestamps never decrease (`Date.now()` is monotone), starting
from a lower bound `t`. -/
def TimesMono (t : ℕ) : List (ℕ × ℕ) → Prop
  | [] => True
  | (now, _) :: rest => t ≤ now ∧ TimesMono now rest

/-- Sum of the tokens of all events whose timestamp lies in the trailing
60-second window `(T - 60000, T]`. -/
def windowSum (T : ℕ) (events : List (ℕ × ℕ)) : ℕ :=
  ((events.filter (fun e => e.1 ≤ T ∧ T < e.1 + 60000)).map Prod.snd).sum

end TokenTracker

/-! ## Retry loop of `extractFactsFromEpisode` (synchronous extractor) -/

/-- Outcome of one attempt of the `try` body: success (response received,
parsed, validated and written), or a thrown error whose optional `status`
field is the HTTP status (`error?.status`). -/
inductive AttemptOutcome where
  | success : AttemptOutcome
  | failure (status : Option ℕ) : AttemptOutcome
deriving DecidableEq, Repr

/-- The `for (let attempt = 1; attempt <= retries; attempt++)` loop of
`extractFactsFromEpisode`.  Returns the overall result together with the
list of backoff waits (milliseconds) performed, in order.  `fuel` is the
number of remaining loop iterations (`retries - attempt + 1`); when it
reaches zero the loop exits and the function's final `return false` runs.

Catch-clause translation, in source order: a 429 status with
`attempt < retries` sleeps `Math.pow(2, attempt) * 1000` ms and continues;
otherwise `attempt === retries` returns `false`; otherwise the loop simply
continues with the next attempt (no wait). -/
def extractAttemptLoop (outcomes : ℕ → AttemptOutcome) (retries : ℕ) :
    ℕ → ℕ → Bool × List ℕ
  | 0, _ => (false, [])
  | fuel + 1, attempt =>
    match outcomes attempt with
    | .success => (true, [])
    | .failure status =>
      if status = some 429 ∧ attempt < retries then
        let r := extractAttemptLoop outcomes retries fuel (attempt + 1)
        (r.1, (2 ^ attempt * 1000) :: r.2)
      else if attempt = retries then (false, [])
      else extractAttemptLoop outcomes retries fuel (attempt + 1)

/-- `extractFactsFromEpisode(fileBase, csv, outputPath, retries = 3)`,
abstracted over the per-attempt outcome oracle. -/
def extractFactsFromEpisode (outcomes : ℕ → AttemptOutcome) (retries : ℕ := 3) :
    Bool × List ℕ :=
  extractAttemptLoop outcomes retries retries 1

/-- Outcome assignment with the given outcomes for attempts 1, 2, 3 (and
success afterwards, unreachable with `retries = 3`). -/
def outcomes3 (r1 r2 r3 : AttemptOutcome) : ℕ → AttemptOutcome
  | 1 => r1
  | 2 => r2
  | 3 => r3
  | _ => .success

/-! ## VTT preparation and the synchronous driver loop
(`prepareVttFile`, `extractFactsFromVtt` of `extract-facts.ts`) -/

/-- One caption cue as produced by the subtitle parser library
(`from`/`to` are millisecond offsets). -/
structure Cue where
  fromMs : ℕ
  toMs : ℕ
  text : String
deriving DecidableEq, Repr

/-- One canonical transcript row `{start_hhmmss, end_hhmmss, text}`. -/
structure TranscriptRow where
  start_hhmmss : List Char
  end_hhmmss : List Char
  text : List Char
deriving DecidableEq, Repr

/-- The per-cue record built in `prepareVttFile`:
`secondsToHHMMSS(c.start)` / `secondsToHHMMSS(c.end)` where
`start = (c.from || 0) / 1000` seconds, and `sanitizeCsvText(c.text)`. -/
def cueToRow (c : Cue) : TranscriptRow :=
  { start_hhmmss := secondsToHHMMSS ((c.fromMs : ℚ) / 1000)
    end_hhmmss := secondsToHHMMSS ((c.toMs : ℚ) / 1000)
    text := sanitizeCsvText c.text.data }

/-- `path.join(dir, file)`, modelled as separator concatenation. -/
def joinPath (dir file : String) : String := dir ++ "/" ++ file

/-- External effects consumed by the driver: the filesystem
(`fileExists`, `fs.readFile`), the subtitle parser library, and the
per-episode network outcome of `extractFactsFromEpisode` (indexed by the
loop position). -/
structure PipelineWorld where
  fileExists : String → Bool
  readFile : String → Option String
  parseSubtitle : String → Option (List Cue)
  extractOk : ℕ → Bool

/-- `prepareVttFile(vttPath, outputDir, force)`: the idempotency gate
(`!force && fileExists(outFacts)` returns `null` before any other work),
then read, parse, and build the canonical rows.  The transcript JSON/CSV
writes only log on failure and do not affect the result. -/
def prepareVttFile (w : PipelineWorld) (vttPath outputDir : String)
    (force : Bool) : Option (List TranscriptRow × String) :=
  let outFacts := joinPath outputDir "facts.json"
  if ¬force ∧ w.fileExists outFacts then none
  else
    match w.readFile vttPath with
    | none => none
    | some content =>
      match w.parseSubtitle content with
      | none => none
      | some cues => some (cues.map cueToRow, outFacts)

/-- Result of one driver run: the `{ok, fail, skipped}` tallies plus the
indices of episodes for which an extraction request was actually issued
(`extractFactsFromEpisode` was called). -/
structure RunResult where
  ok : ℕ
  fail : ℕ
  skipped : ℕ
  issued : List ℕ
deriving DecidableEq, Repr

/-- The `for (let i = 0; ...)` loop of `extractFactsFromVtt`: skipped
episodes (null from `prepareVttFile`) are tallied in `skipped` and no
request is issued; otherwise one request is issued and tallied `ok` or
`fail`. -/
def extractFactsLoop (w : PipelineWorld) (force : Bool) :
    List (String × String) → ℕ → RunResult
  | [], _ => ⟨0, 0, 0, []⟩
  | (vtt, outDir) :: rest, i =>
    let r := extractFactsLoop w force rest (i + 1)
    match prepareVttFile w vtt outDir force with
    | none => ⟨r.ok, r.fail, r.skipped + 1, r.issued⟩
    | some _ =>
      if w.extractOk i then ⟨r.ok + 1, r.fail, r.skipped, i :: r.issued⟩
      else ⟨r.ok, r.fail + 1, r.skipped, i :: r.issued⟩

/-- `extractFactsFromVtt(vttPaths, outputDirs, force)`, the synchronous
driver, over the list of `(vttPath, outputDir)` pairs (the source builds
the two parallel arrays from one episode list). -/
def extractFactsFromVtt (w : PipelineWorld) (eps : List (String × String))
    (force : Bool) : RunResult :=
  extractFactsLoop w force eps 0

/-! ## Batch polling (`waitForBatchCompletion` of the batch extractor) -/

/-- The `while (true)` polling loop: `statuses k` is the status returned by
the `k`-th `batches.retrieve` call.  `completed` returns the batch
(modelled by the poll index); `failed` / `expired` / `cancelled` throws;
anything else sleeps 30 000 ms and polls again.  The result pairs the
outcome with the list of sleep durations performed; `fuel` bounds the
number of polls so the loop is a total function, `none` meaning the loop
was still running after `fuel` polls. -/
def waitForBatchLoop (statuses : ℕ → String) :
    ℕ → ℕ → Option (Except String ℕ × List ℕ)
  | 0, _ => none
  | fuel + 1, k =>
    let s := statuses k
    if s = "completed" then some (.ok k, [])
    else if s = "failed" ∨ s = "expired" ∨ s = "cancelled" then
      some (.error s, [])
    else (waitForBatchLoop statuses fuel (k + 1)).map (fun r => (r.1, 30000 :: r.2))

/-- `waitForBatchCompletion(batchId)` with a poll budget. -/
def waitForBatchCompletion (statuses : ℕ → String) (fuel : ℕ) :
    Option (Except String ℕ × List ℕ) :=
  waitForBatchLoop statuses fuel 0

/-- A batch status is terminal when it is `completed`, `failed`, `expired`
or `cancelled`. -/
def terminalStatus (s : String) : Bool :=
  s = "completed" ∨ s = "failed" ∨ s = "expired" ∨ s = "cancelled"

/-! ## Verification-side helpers (inverse parsers, not from the source) -/

/-- Numeric value of a decimal digit character. -/
def digitVal (c : Char) : ℕ := c.toNat - '0'.toNat

/-- Decode a 2-character zero-padded decimal string. -/
def decodePair (l : List Char) : Option ℕ :=
  match l with
  | [a, b] =>
    if isDigitChar a ∧ isDigitChar b then some (10 * digitVal a + digitVal b)
    else none
  | _ => none

/-- Decode `HH:MM:SS` (2-digit components) back to total seconds; `none`
for anything that is not zero-padded `HH:MM:SS`. -/
def hmsValue (l : List Char) : Option ℕ :=
  match l with
  | [a, b, c, d, e, f, g, h] =>
    if c = ':' ∧ f = ':' ∧ isDigitChar a ∧ isDigitChar b ∧ isDigitChar d ∧
        isDigitChar e ∧ isDigitChar g ∧ isDigitChar h then
      some (3600 * (10 * digitVal a + digitVal b) +
        60 * (10 * digitVal d + digitVal e) + (10 * digitVal g + digitVal h))
    else none
  | _ => none

/-- Concrete `JSON.parse` oracle used by closed witness statements: accepts
exactly the text `{1}`. -/
def jpW : List Char → Option ℕ :=
  fun l => if l = "\x7b1\x7d".data then some 1 else none

/-! ## Theorems -/

/-- **C5.** `extractJson` tries, in order: (1) the whole string, (2) the
interior of a fenced code block, (3) the first-`{`-to-last-`}` slice, and
throws if and only if all three attempts fail. -/
theorem extractJson_three_stage {α : Type} (jp : List Char → Option α)
    (text : List Char) :
    (extractJson jp text = Except.error () ↔
      jp text = none ∧ (findFencedBlock text).bind jp = none ∧
        (braceSlice text).bind jp = none) ∧
    (∀ v, jp text = some v → extractJson jp text = Except.ok v) ∧
    (jp text = none → ∀ v, (findFencedBlock text).bind jp = some v →
      extractJson jp text = Except.ok v) ∧
    (jp text = none → (findFencedBlock text).bind jp = none →
      ∀ v, (braceSlice text).bind jp = some v →
        extractJson jp text = Except.ok v) := by
  cases h1 : jp text with
  | some v => simp [extractJson, h1]
  | none =>
    cases h2 : findFencedBlock text with
    | none =>
      cases h3 : braceSlice text with
      | none => simp [extractJson, extractJsonSlice, h1, h2, h3]
      | some seg =>
        cases h4 : jp seg with
        | none => simp [extractJson, extractJsonSlice, h1, h2, h3, h4]
        | some v => simp [extractJson, extractJsonSlice, h1, h2, h3, h4]
    | some inner =>
      cases h4 : jp inner with
      | some v => simp [extractJson, h1, h2, h4]
      | none =>
        cases h3 : braceSlice text with
        | none => simp [extractJson, extractJsonSlice, h1, h2, h3, h4]
        | some seg =>
          cases h5 : jp seg with
          | none => simp [extractJson, extractJsonSlice, h1, h2, h3, h4, h5]
          | some v => simp [extractJson, extractJsonSlice, h1, h2, h3, h4, h5]

/-- Witness for C5: a fenced-block response where direct parsing fails and
the block interior parses. -/
theorem extractJson_three_stage_witness :
    extractJson jpW "no ```json \x7b1\x7d``` yes".data = Except.ok 1 :=
  (extractJson_three_stage jpW "no ```json \x7b1\x7d``` yes".data).2.2.1
    (by decide) 1 (by decide)

/-- **C2 counterexample.** A non-429 error (HTTP 500) on the first attempt
does **not** make the call fail immediately: the loop silently moves on to
attempt 2, which succeeds, so the whole call returns success (with no
backoff wait). -/
theorem extractFactsFromEpisode_non429_retried :
    extractFactsFromEpisode (outcomes3 (.failure (some 500)) .success .success) =
      (true, []) := by decide

/-- **C2 (amended).** The retry loop of `extractFactsFromEpisode` retries
*every* error class up to 3 total attempts: a 429 failure on attempt
`a < 3` sleeps `2^a` seconds before the next attempt, any other failure
retries immediately with no wait, and only after the 3rd attempt fails
does the call give up and return failure. -/
theorem extractFactsFromEpisode_retry_policy :
    (∀ s₁ : Option ℕ,
      extractFactsFromEpisode (outcomes3 (.failure s₁) .success .success) =
        (true, if s₁ = some 429 then [2000] else [])) ∧
    (∀ s₁ s₂ : Option ℕ,
      extractFactsFromEpisode (outcomes3 (.failure s₁) (.failure s₂) .success) =
        (true, (if s₁ = some 429 then [2000] else []) ++
          (if s₂ = some 429 then [4000] else []))) ∧
    (∀ s₁ s₂ s₃ : Option ℕ,
      extractFactsFromEpisode (outcomes3 (.failure s₁) (.failure s₂) (.failure s₃)) =
        (false, (if s₁ = some 429 then [2000] else []) ++
          (if s₂ = some 429 then [4000] else []))) ∧
    extractFactsFromEpisode (fun _ => .success) = (true, []) := by
  refine ⟨fun s₁ => ?_, fun s₁ s₂ => ?_, fun s₁ s₂ s₃ => ?_, by decide⟩ <;>
    by_cases h1 : s₁ = some 429 <;>
    first
      | (by_cases h2 : s₂ = some 429 <;>
          simp [extractFactsFromEpisode, extractAttemptLoop, outcomes3, h1, h2])
      | simp [extractFactsFromEpisode, extractAttemptLoop, outcomes3, h1]

/-- Helper for C8: if the first terminal status appears at poll `j`, the
loop started at poll `k ≤ j` with more than `j - k` fuel reaches it after
exactly `j - k` thirty-second sleeps, completing or throwing according to
the status. -/
theorem waitForBatchLoop_first_terminal (statuses : ℕ → String) (j : ℕ) :
    ∀ fuel k, k ≤ j → j < k + fuel →
      (∀ i, k ≤ i → i < j → terminalStatus (statuses i) = false) →
      terminalStatus (statuses j) = true →
      waitForBatchLoop statuses fuel k =
        some ((if statuses j = "completed" then Except.ok j
          else Except.error (statuses j)), List.replicate (j - k) 30000) := by
  intro fuel
  induction fuel with
  | zero => intro k hk hlt _ _; omega
  | succ n ih =>
    intro k hk hlt hpre hterm
    rcases eq_or_lt_of_le hk with rfl | hkj
    · by_cases hc : statuses k = "completed"
      · simp [waitForBatchLoop, hc]
      · have hf : (statuses k = "failed" ∨ statuses k = "expired" ∨
            statuses k = "cancelled") := by
          simp only [terminalStatus, decide_eq_true_eq] at hterm
          tauto
        simp [waitForBatchLoop, hc, hf]
    · have hnt := hpre k (le_refl k) hkj
      simp only [terminalStatus, decide_eq_false_iff_not, not_or] at hnt
      obtain ⟨hc, hf1, hf2, hf3⟩ := hnt
      have hrec := ih (k + 1) (by omega) (by omega)
        (fun i hi hij => hpre i (by omega) hij) hterm
      have hrep : j - k = (j - (k + 1)) + 1 := by omega
      simp [waitForBatchLoop, hc, hf1, hf2, hf3, hrec, hrep, List.replicate_succ]

/-- Helper for C8: whenever the loop returns normally, the status observed
at that poll was `completed`. -/
theorem waitForBatchLoop_ok_completed (statuses : ℕ → String) :
    ∀ fuel k res sleeps,
      waitForBatchLoop statuses fuel k = some (Except.ok res, sleeps) →
      statuses res = "completed" := by
  intro fuel
  induction fuel with
  | zero => intro k res sleeps h; simp [waitForBatchLoop] at h
  | succ n ih =>
    intro k res sleeps h
    by_cases hc : statuses k = "completed"
    · simp [waitForBatchLoop, hc] at h
      rw [← h.1]; exact hc
    · by_cases hf : statuses k = "failed" ∨ statuses k = "expired" ∨
        statuses k = "cancelled"
      · simp [waitForBatchLoop, hc, hf] at h
      · simp only [waitForBatchLoop, if_neg hc, if_neg hf, Option.map_eq_some'] at h
        obtain ⟨r, hr, heq⟩ := h
        have h1 : r.1 = Except.ok res := congrArg Prod.fst heq
        rw [show r = (Except.ok res, r.2) from by rw [← h1]] at hr
        exact ih (k + 1) res r.2 hr

/-- **C8.** `waitForBatchCompletion` polls on a fixed 30-second interval:
with the first terminal status at poll `j`, it performs exactly `j` sleeps
of 30 000 ms; it returns normally exactly when that status is `completed`,
and for the other terminal statuses (`failed`, `expired`, `cancelled`) it
throws the error that fails the whole job. -/
theorem waitForBatchCompletion_spec (statuses : ℕ → String) (fuel j : ℕ)
    (hfuel : j < fuel)
    (hpre : ∀ i, i < j → terminalStatus (statuses i) = false)
    (hterm : terminalStatus (statuses j) = true) :
    (statuses j = "completed" →
      waitForBatchCompletion statuses fuel =
        some (Except.ok j, List.replicate j 30000)) ∧
    (statuses j ≠ "completed" →
      waitForBatchCompletion statuses fuel =
        some (Except.error (statuses j), List.replicate j 30000)) ∧
    (∀ k sleeps,
      waitForBatchCompletion statuses fuel = some (Except.ok k, sleeps) →
      statuses k = "completed") := by
  have hmain := waitForBatchLoop_first_terminal statuses j fuel 0 (by omega)
    (by omega) (fun i _ hij => hpre i hij) hterm
  refine ⟨fun hc => ?_, fun hc => ?_, fun k sleeps h => ?_⟩
  · rw [waitForBatchCompletion, hmain, if_pos hc]; simp
  · rw [waitForBatchCompletion, hmain, if_neg hc]; simp
  · exact waitForBatchLoop_ok_completed statuses fuel 0 k sleeps h

/-- Status oracle for the C8 witness: two in-progress polls, then
`failed`. -/
def statusesW : ℕ → String := fun k => if k < 2 then "in_progress" else "failed"

/-- Witness for C8: with the first terminal status `failed` at poll 2, the
loop sleeps twice for 30 s and then throws. -/
theorem waitForBatchCompletion_spec_witness :
    waitForBatchCompletion statusesW 5 =
      some (Except.error (statusesW 2), List.replicate 2 30000) :=
  (waitForBatchCompletion_spec statusesW 5 2 (by decide)
    (by decide) (by decide)).2.1 (by decide)

/-- **C6.** Classification is a pure function of the metadata: it returns
`standard` exactly when
`(hasEpisodeNumber ∨ isFullEpisode ∨ titleHasNumber) ∧ ¬titleHasCompilationOrBonus`
(truthiness of `itunes?.episode` and optional chaining make missing fields
absent/false, never errors); otherwise `episodeType == "bonus"` yields
`compilation` when the title contains "compilation" case-insensitively and
`bonus` otherwise, and every remaining case yields `other`. -/
theorem classifyEpisode_spec (m : EpisodeMetadata) :
    (classifyEpisode m = .standard ↔
      ((optTruthyStr (m.itunes.bind ItunesMeta.episode) = true ∧
          m.itunes.bind ItunesMeta.episodeType ≠ some "bonus") ∨
        m.itunes.bind ItunesMeta.episodeType = some "full" ∨
        titleHasNumber m.title = true) ∧
      ¬ titleHasCompilationOrBonus m.title = true) ∧
    (classifyEpisode m ≠ .standard →
      m.itunes.bind ItunesMeta.episodeType = some "bonus" →
      classifyEpisode m =
        (if titleIncludesCompilation m.title then .compilation else .bonus)) ∧
    (classifyEpisode m ≠ .standard →
      m.itunes.bind ItunesMeta.episodeType ≠ some "bonus" →
      classifyEpisode m = .other) := by
  simp only [classifyEpisode]
  split_ifs with h1 h2 h3 <;> refine ⟨?_, ?_, ?_⟩ <;> simp_all

/-- Witness for C6: the spec's own scenario — a bonus-typed episode titled
"March Compilation" classifies as `compilation`. -/
theorem classifyEpisode_spec_witness :
    classifyEpisode ⟨"March Compilation", some ⟨none, some "bonus"⟩⟩ =
      .compilation := by
  have h := (classifyEpisode_spec ⟨"March Compilation", some ⟨none, some "bonus"⟩⟩).2.1
    (by decide) (by decide)
  simpa using h

/-- Inversion for `reqNonemptyString`. -/
theorem reqNonemptyString_some {o : Option Json} {s : String}
    (h : reqNonemptyString o = some s) :
    o = some (.jstr s) ∧ s ≠ "" := by
  match o with
  | some (.jstr t) =>
    simp only [reqNonemptyString] at h
    split at h
    · exact absurd h (by simp)
    · next hlen =>
      cases h
      refine ⟨rfl, fun hs => hlen ?_⟩
      subst hs; decide
  | some .jnull | some (.jbool _) | some (.jnum _) | some (.jarr _)
  | some (.jobj _) | none => simp [reqNonemptyString] at h

/-- Inversion for `decodeEpisode`: a successful base parse pins down the
object fields. -/
theorem decodeEpisode_inv {j : Json} {e : Episode}
    (h : decodeEpisode j = some e) :
    ∃ fs, j = .jobj fs ∧
      reqNonemptyString (List.lookup "episode_number" fs) = some e.episode_number ∧
      reqNonemptyString (List.lookup "episode_title" fs) = some e.episode_title ∧
      reqEpisodeType (List.lookup "episode_type" fs) = some e.episode_type ∧
      reqNonemptyString (List.lookup "episode_summary" fs) = some e.episode_summary ∧
      reqFacts (List.lookup "facts" fs) = some e.facts := by
  match j with
  | .jobj fs =>
    refine ⟨fs, rfl, ?_⟩
    simp only [decodeEpisode] at h
    split at h
    · next n t ty su fa hn ht hty hsu hfa =>
      cases h
      exact ⟨hn, ht, hty, hsu, hfa⟩
    · exact absurd h (by simp)
  | .jnull | .jbool _ | .jnum _ | .jstr _ | .jarr _ =>
    simp [decodeEpisode] at h

/-- `decodeFacts` preserves length. -/
theorem decodeFacts_length :
    ∀ {xs : List Json} {ys : List EpisodeFact},
      decodeFacts xs = some ys → ys.length = xs.length := by
  intro xs
  induction xs with
  | nil => intro ys h; cases h; rfl
  | cons a l ih =>
    intro ys h
    simp only [decodeFacts] at h
    split at h
    · next f fr hf hfr =>
      cases h
      simp [ih hfr]
    · exact absurd h (by simp)

/-- With every key of `fs` drawn from `allowedRespKeys`, the lookups of the
two extra `EpisodeSchema` fields fail. -/
theorem lookup_eq_none_of_allowed {fs : List (String × Json)}
    (hall : fs.all (fun kv => allowedRespKeys.contains kv.1) = true)
    {k : String} (hk : allowedRespKeys.contains k = false) :
    List.lookup k fs = none := by
  induction fs with
  | nil => rfl
  | cons kv rest ih =>
    simp only [List.all_cons, Bool.and_eq_true] at hall
    have hne : (k == kv.1) = false := by
      rcases hbeq : (k == kv.1) with _ | _
      · rfl
      · have hkk := eq_of_beq hbeq
        rw [← hkk] at hall
        rw [hall.1] at hk
        cases hk
    rw [show kv = (kv.1, kv.2) from rfl, List.lookup_cons]
    simp only [hne]
    exact ih hall.2

/-- `superRefine` issues for a standard episode without exactly 4 facts. -/
theorem refineIssues_standard_not4 {e : Episode}
    (hty : e.episode_type = .standard) (hlen : e.facts.length ≠ 4) :
    refineIssues e =
      [⟨["facts"], "standard episodes must have exactly 4 facts"⟩] := by
  simp [refineIssues, hty, hlen]

/-- `superRefine` issues for a 4-fact record reduce to the numbering
check. -/
theorem refineIssues_len4 {e : Episode} (hlen : e.facts.length = 4) :
    refineIssues e =
      (if ¬((([1, 2, 3, 4] : List ℤ).all
            (fun n => (e.facts.map EpisodeFact.fact_number).dedup.contains n)) ∧
          (e.facts.map EpisodeFact.fact_number).dedup.length = 4) then
        [⟨["facts"], "facts must include fact_number 1..4 exactly once"⟩]
      else []) := by
  by_cases hty : e.episode_type = .standard <;> simp [refineIssues, hty, hlen]

/-- The JS-`Set` numbering check of the `superRefine` is equivalent to the
multiset of `fact_number` values being exactly `{1, 2, 3, 4}`. -/
theorem dedup_cond_iff_multiset (l : List ℤ) (hlen : l.length = 4) :
    ((([1, 2, 3, 4] : List ℤ).all (fun n => l.dedup.contains n) ∧
        l.dedup.length = 4) ↔
      (l : Multiset ℤ) = ({1, 2, 3, 4} : Multiset ℤ)) := by
  constructor
  · rintro ⟨hall, hcard⟩
    have hsub : l.dedup.Sublist l := List.dedup_sublist l
    have heq : l.dedup = l := hsub.eq_of_length (by rw [hcard, hlen])
    have hnd : l.Nodup := by rw [← heq]; exact List.nodup_dedup l
    have hmem : ∀ n ∈ ([1, 2, 3, 4] : List ℤ), n ∈ l := by
      intro n hn
      have := List.all_eq_true.mp hall n hn
      rw [heq] at this
      simpa using this
    have hle : ({1, 2, 3, 4} : Multiset ℤ) ≤ (l : Multiset ℤ) := by
      apply (Multiset.le_iff_subset (by decide)).2
      intro a ha
      exact hmem a (by simpa using ha)
    exact (Multiset.eq_of_le_of_card_le hle (by simp [hlen])).symm
  · intro hm
    have hperm : l.Perm [1, 2, 3, 4] := by
      rwa [show ({1, 2, 3, 4} : Multiset ℤ) =
        (([1, 2, 3, 4] : List ℤ) : Multiset ℤ) from rfl,
        Multiset.coe_eq_coe] at hm
    have hnd : l.Nodup := hperm.nodup_iff.mpr (by decide)
    have heq : l.dedup = l := List.dedup_eq_self.mpr hnd
    refine ⟨List.all_eq_true.mpr fun n hn => ?_, by rw [heq, hlen]⟩
    rw [heq]
    simpa using hperm.mem_iff.mpr (by simpa using hn)

/-- **C3.** Any record with `episode_type = "standard"` and a facts array
of length ≠ 4 is rejected by `EpisodeSchema.parse`; when the base object
parse succeeds, the failure is the `superRefine` issue at path `facts`
with the message "standard episodes must have exactly 4 facts". -/
theorem episodeSchema_standard_needs_4_facts :
    (∀ (j : Json) (xs : List Json),
      jsonField j "episode_type" = some (.jstr "standard") →
      jsonField j "facts" = some (.jarr xs) → xs.length ≠ 4 →
      ∀ e, episodeSchemaParse j ≠ .parsed e) ∧
    (∀ (j : Json) (e : Episode), decodeEpisode j = some e →
      e.episode_type = .standard → e.facts.length ≠ 4 →
      episodeSchemaParse j = .invalidRefine (refineIssues e) ∧
        (⟨["facts"], "standard episodes must have exactly 4 facts"⟩ : ZodIssue) ∈
          refineIssues e) := by
  have hpart2 : ∀ (j : Json) (e : Episode), decodeEpisode j = some e →
      e.episode_type = .standard → e.facts.length ≠ 4 →
      episodeSchemaParse j = .invalidRefine (refineIssues e) ∧
        (⟨["facts"], "standard episodes must have exactly 4 facts"⟩ : ZodIssue) ∈
          refineIssues e := by
    intro j e hd hty hlen
    have hri := refineIssues_standard_not4 hty hlen
    refine ⟨?_, by simp [hri]⟩
    rw [episodeSchemaParse, hd]
    simp only [hri]
  refine ⟨?_, hpart2⟩
  intro j xs hty hfacts hlen e
  cases hd : decodeEpisode j with
  | none => simp [episodeSchemaParse, hd]
  | some e' =>
    obtain ⟨fs, rfl, hn, ht, hty', hsu, hfa⟩ := decodeEpisode_inv hd
    simp only [jsonField] at hty hfacts
    rw [hty] at hty'
    have hty2 : e'.episode_type = .standard := by
      simp [reqEpisodeType] at hty'
      first
        | exact hty'
        | exact hty'.symm
    rw [hfacts] at hfa
    simp only [reqFacts] at hfa
    have hlen2 : e'.facts.length = xs.length := decodeFacts_length hfa
    have hres := (hpart2 _ _ hd hty2 (by omega)).1
    rw [hres]
    simp

/-- Witness for C3: a well-formed standard record with zero facts is
rejected with the 4-fact issue. -/
theorem episodeSchema_standard_needs_4_facts_witness :
    episodeSchemaParse (Json.jobj [("episode_number", .jstr "575"),
        ("episode_title", .jstr "T"), ("episode_type", .jstr "standard"),
        ("episode_summary", .jstr "S"), ("facts", .jarr [])]) =
      .invalidRefine (refineIssues ⟨"575", "T", .standard, "S", []⟩) ∧
    (⟨["facts"], "standard episodes must have exactly 4 facts"⟩ : ZodIssue) ∈
      refineIssues ⟨"575", "T", .standard, "S", []⟩ :=
  episodeSchema_standard_needs_4_facts.2 _ ⟨"575", "T", .standard, "S", []⟩
    (by decide) (by decide) (by decide)

/-- **C4.** For a record whose facts array has exactly 4 elements (and
which passes the base object parse), `EpisodeSchema.parse` accepts the
numbering exactly when the multiset of `fact_number` values is
`{1, 2, 3, 4}` with each value once; otherwise it rejects with the
`superRefine` issue at path `facts`. -/
theorem episodeSchema_fact_numbering (j : Json) (e : Episode)
    (hd : decodeEpisode j = some e) (hlen : e.facts.length = 4) :
    (episodeSchemaParse j = .parsed e ↔
      ((e.facts.map EpisodeFact.fact_number : Multiset ℤ) =
        ({1, 2, 3, 4} : Multiset ℤ))) ∧
    (((e.facts.map EpisodeFact.fact_number : Multiset ℤ) ≠
        ({1, 2, 3, 4} : Multiset ℤ)) →
      episodeSchemaParse j = .invalidRefine (refineIssues e) ∧
        (⟨["facts"], "facts must include fact_number 1..4 exactly once"⟩ : ZodIssue) ∈
          refineIssues e) := by
  have hmaplen : (e.facts.map EpisodeFact.fact_number).length = 4 := by
    simpa using hlen
  have hiff := dedup_cond_iff_multiset (e.facts.map EpisodeFact.fact_number) hmaplen
  have hri := refineIssues_len4 hlen
  by_cases hcond : (([1, 2, 3, 4] : List ℤ).all
      (fun n => (e.facts.map EpisodeFact.fact_number).dedup.contains n) ∧
      (e.facts.map EpisodeFact.fact_number).dedup.length = 4)
  · rw [if_neg (not_not_intro hcond)] at hri
    constructor
    · simp only [episodeSchemaParse, hd, hri]
      simpa using hiff.mp hcond
    · intro hm
      exact absurd (hiff.mp hcond) hm
  · rw [if_pos hcond] at hri
    constructor
    · simp only [episodeSchemaParse, hd, hri]
      constructor
      · intro h; exact absurd h (by simp)
      · intro hm; exact absurd (hiff.mpr hm) hcond
    · intro _
      refine ⟨?_, by simp [hri]⟩
      simp only [episodeSchemaParse, hd, hri]

/-- Witness for C4: a 4-fact record with `fact_number`s 1, 1, 2, 3 is
rejected with the numbering issue. -/
theorem episodeSchema_fact_numbering_witness :
    episodeSchemaParse (Json.jobj [("episode_number", .jstr "1"),
        ("episode_title", .jstr "T"), ("episode_type", .jstr "other"),
        ("episode_summary", .jstr "S"),
        ("facts", .jarr [
          .jobj [("fact_number", .jnum 1), ("fact", .jstr "a"),
            ("presenter", .jstr "p"), ("guest", .jbool false),
            ("start_time", .jstr "unknown")],
          .jobj [("fact_number", .jnum 1), ("fact", .jstr "b"),
            ("presenter", .jstr "p"), ("guest", .jbool false),
            ("start_time", .jstr "unknown")],
          .jobj [("fact_number", .jnum 2), ("fact", .jstr "c"),
            ("presenter", .jstr "p"), ("guest", .jbool false),
            ("start_time", .jstr "unknown")],
          .jobj [("fact_number", .jnum 3), ("fact", .jstr "d"),
            ("presenter", .jstr "p"), ("guest", .jbool false),
            ("start_time", .jstr "unknown")]])]) =
      .invalidRefine (refineIssues
        ⟨"1", "T", .other, "S",
          [⟨1, "a", "p", false, "unknown"⟩, ⟨1, "b", "p", false, "unknown"⟩,
            ⟨2, "c", "p", false, "unknown"⟩, ⟨3, "d", "p", false, "unknown"⟩]⟩) ∧
    (⟨["facts"], "facts must include fact_number 1..4 exactly once"⟩ : ZodIssue) ∈
      refineIssues ⟨"1", "T", .other, "S",
        [⟨1, "a", "p", false, "unknown"⟩, ⟨1, "b", "p", false, "unknown"⟩,
          ⟨2, "c", "p", false, "unknown"⟩, ⟨3, "d", "p", false, "unknown"⟩]⟩ :=
  (episodeSchema_fact_numbering _
    ⟨"1", "T", .other, "S",
      [⟨1, "a", "p", false, "unknown"⟩, ⟨1, "b", "p", false, "unknown"⟩,
        ⟨2, "c", "p", false, "unknown"⟩, ⟨3, "d", "p", false, "unknown"⟩]⟩
    (by decide) (by decide)).2 (by decide)

/-- **C10.** `EpisodeSchema` demands non-empty string `episode_number` and
`episode_title` beyond the three fields of the response schemas: any object
lacking either is rejected, and since both response schemas sent to the
model allow only `episode_type`, `episode_summary` and `facts`
(`additionalProperties: false`), every response conforming exactly to
either request schema is rejected by the validator. -/
theorem episodeSchema_rejects_conforming_responses :
    (∀ j : Json,
      (lacksNonemptyString j "episode_number" ∨
        lacksNonemptyString j "episode_title") →
      episodeSchemaParse j = .invalidShape) ∧
    (∀ j : Json, conformsBatchRespSchema j = true →
      episodeSchemaParse j = .invalidShape) ∧
    (∀ j : Json, conformsSyncRespSchema j = true →
      episodeSchemaParse j = .invalidShape) := by
  have hpart1 : ∀ j : Json,
      (lacksNonemptyString j "episode_number" ∨
        lacksNonemptyString j "episode_title") →
      episodeSchemaParse j = .invalidShape := by
    intro j hlack
    cases hd : decodeEpisode j with
    | none => simp [episodeSchemaParse, hd]
    | some e =>
      exfalso
      obtain ⟨fs, rfl, hn, ht, _, _, _⟩ := decodeEpisode_inv hd
      rcases hlack with hlack | hlack
      · obtain ⟨hl, hne⟩ := reqNonemptyString_some hn
        exact hne (hlack _ (by simpa [jsonField] using hl))
      · obtain ⟨hl, hne⟩ := reqNonemptyString_some ht
        exact hne (hlack _ (by simpa [jsonField] using hl))
  have hkeys : ∀ (fs : List (String × Json)),
      fs.all (fun kv => allowedRespKeys.contains kv.1) = true →
      episodeSchemaParse (.jobj fs) = .invalidShape := by
    intro fs hall
    apply hpart1
    left
    intro s hs
    rw [jsonField, lookup_eq_none_of_allowed hall (by decide)] at hs
    cases hs
  refine ⟨hpart1, fun j hc => ?_, fun j hc => ?_⟩
  · match j with
    | .jobj fs =>
      simp only [conformsBatchRespSchema, Bool.and_eq_true] at hc
      exact hkeys fs hc.1.1.1
    | .jnull | .jbool _ | .jnum _ | .jstr _ | .jarr _ =>
      simp [conformsBatchRespSchema] at hc
  · match j with
    | .jobj fs =>
      simp only [conformsSyncRespSchema, Bool.and_eq_true] at hc
      exact hkeys fs hc.1.1.1
    | .jnull | .jbool _ | .jnum _ | .jstr _ | .jarr _ =>
      simp [conformsSyncRespSchema] at hc

/-- Witness for C10: a response with exactly the three schema fields (as
produced under `additionalProperties: false`) fails validation. -/
theorem episodeSchema_rejects_conforming_responses_witness :
    conformsBatchRespSchema (Json.jobj [("episode_type", .jstr "standard"),
        ("episode_summary", .jstr "S"), ("facts", .jarr [])]) = true ∧
    episodeSchemaParse (Json.jobj [("episode_type", .jstr "standard"),
        ("episode_summary", .jstr "S"), ("facts", .jarr [])]) =
      .invalidShape :=
  ⟨by decide, episodeSchema_rejects_conforming_responses.2.1 _ (by decide)⟩

/-- Tally bookkeeping of the driver loop: `ok + fail` counts exactly the
issued requests, and `skipped` accounts for all remaining episodes. -/
theorem extractFactsLoop_counts (w : PipelineWorld) (force : Bool) :
    ∀ (eps : List (String × String)) (i : ℕ),
      (extractFactsLoop w force eps i).ok + (extractFactsLoop w force eps i).fail =
        (extractFactsLoop w force eps i).issued.length ∧
      (extractFactsLoop w force eps i).skipped +
        (extractFactsLoop w force eps i).issued.length = eps.length := by
  intro eps
  induction eps with
  | nil => intro i; simp [extractFactsLoop]
  | cons ep rest ih =>
    intro i
    obtain ⟨vtt, outDir⟩ := ep
    have h := ih (i + 1)
    simp only [extractFactsLoop]
    cases hp : prepareVttFile w vtt outDir force with
    | none => simpa using ⟨h.1, by omega⟩
    | some pr =>
      by_cases hok : w.extractOk i = true <;> simp [hok] <;> omega

/-- Issued indices come only from episodes whose `prepareVttFile` did not
skip. -/
theorem extractFactsLoop_issued (w : PipelineWorld) (force : Bool) :
    ∀ (eps : List (String × String)) (i0 j : ℕ),
      j ∈ (extractFactsLoop w force eps i0).issued →
      ∃ k, ∃ hk : k < eps.length, j = i0 + k ∧
        prepareVttFile w (eps.get ⟨k, hk⟩).1 (eps.get ⟨k, hk⟩).2 force ≠ none := by
  intro eps
  induction eps with
  | nil => intro i0 j h; simp [extractFactsLoop] at h
  | cons ep rest ih =>
    intro i0 j h
    obtain ⟨vtt, outDir⟩ := ep
    simp only [extractFactsLoop] at h
    cases hp : prepareVttFile w vtt outDir force with
    | none =>
      rw [hp] at h
      simp only at h
      obtain ⟨k, hk, hj, hpre⟩ := ih (i0 + 1) j h
      exact ⟨k + 1, by simpa using hk, by omega, by simpa using hpre⟩
    | some pr =>
      rw [hp] at h
      by_cases hok : w.extractOk i0 = true <;>
        simp only [hok, if_pos, if_neg, Bool.false_eq_true, if_false,
          List.mem_cons] at h <;>
      · rcases h with rfl | h
        · exact ⟨0, by simp, by omega, by simp [hp]⟩
        · obtain ⟨k, hk, hj, hpre⟩ := ih (i0 + 1) j h
          exact ⟨k + 1, by simpa using hk, by omega, by simpa using hpre⟩

/-- **C7.** With no force override, an episode whose `facts.json` already
exists is gated out: `prepareVttFile` returns `null` before any work, the
episode's index is never issued as a request, and the tallies satisfy
`ok + fail = issued` and `skipped + issued = total`, so the episode is
counted in the separate `skipped` tally. -/
theorem idempotency_gate (w : PipelineWorld) (eps : List (String × String))
    (i : ℕ) (hi : i < eps.length)
    (hexists : w.fileExists (joinPath (eps.get ⟨i, hi⟩).2 "facts.json") = true) :
    prepareVttFile w (eps.get ⟨i, hi⟩).1 (eps.get ⟨i, hi⟩).2 false = none ∧
    i ∉ (extractFactsFromVtt w eps false).issued ∧
    (extractFactsFromVtt w eps false).ok + (extractFactsFromVtt w eps false).fail =
      (extractFactsFromVtt w eps false).issued.length ∧
    (extractFactsFromVtt w eps false).skipped +
      (extractFactsFromVtt w eps false).issued.length = eps.length := by
  have hgate : prepareVttFile w (eps.get ⟨i, hi⟩).1 (eps.get ⟨i, hi⟩).2 false = none := by
    simp only [List.get_eq_getElem] at hexists
    simp [prepareVttFile, hexists]
  have hcounts := extractFactsLoop_counts w false eps 0
  refine ⟨hgate, ?_, hcounts.1, hcounts.2⟩
  intro hmem
  obtain ⟨k, hk, hj, hpre⟩ :=
    extractFactsLoop_issued w false eps 0 i hmem
  have hki : k = i := by omega
  subst hki
  exact hpre hgate

/-- Pipeline world for the C7 witness: `facts.json` exists everywhere, the
other oracles are inert. -/
def worldW : PipelineWorld :=
  { fileExists := fun _ => true
    readFile := fun _ => none
    parseSubtitle := fun _ => none
    extractOk := fun _ => true }

/-- Witness for C7: with an existing artifact and no force flag, the single
episode is skipped, never issued, and tallied apart from ok/fail. -/
theorem idempotency_gate_witness :
    prepareVttFile worldW "a.vtt" "dir" false = none ∧
    0 ∉ (extractFactsFromVtt worldW [("a.vtt", "dir")] false).issued ∧
    (extractFactsFromVtt worldW [("a.vtt", "dir")] false).ok +
      (extractFactsFromVtt worldW [("a.vtt", "dir")] false).fail =
      (extractFactsFromVtt worldW [("a.vtt", "dir")] false).issued.length ∧
    (extractFactsFromVtt worldW [("a.vtt", "dir")] false).skipped +
      (extractFactsFromVtt worldW [("a.vtt", "dir")] false).issued.length = 1 :=
  idempotency_gate worldW [("a.vtt", "dir")] 0 (by decide) (by decide)

/-- `Rat.floor` agrees with the floor of the rational. -/
theorem rat_floor_eq_intFloor (q : ℚ) : q.floor = ⌊q⌋ := by
  rw [Rat.floor_def', Rat.floor_def]

/-- `Math.max(0, Math.floor(ms / 1000))` is natural-number division by
1000. -/
theorem total_of_ms (n : ℕ) : (max 0 ((n : ℚ) / 1000).floor).toNat = n / 1000 := by
  have h1 : ((n : ℚ) / 1000).floor = ((n / 1000 : ℕ) : ℤ) := by
    rw [rat_floor_eq_intFloor]
    have : ((n : ℚ) / 1000) = (((n : ℤ) : ℚ) / ((1000 : ℕ) : ℚ)) := by push_cast; ring
    rw [this, Rat.floor_intCast_div_natCast]
    exact (Int.ofNat_div n 1000).symm
  rw [h1]
  have h2 : (0 : ℤ) ≤ ((n / 1000 : ℕ) : ℤ) := Int.ofNat_nonneg _
  rw [max_eq_right h2]
  exact Int.toNat_ofNat _

/-- Zero-padded rendering of every two-digit number decodes back to it. -/
theorem decodePair_pad : ∀ n < 100, decodePair (padStart2 (natChars n)) = some n := by
  decide

/-- Inversion of `decodePair`. -/
theorem decodePair_inv {l : List Char} {n : ℕ} (h : decodePair l = some n) :
    ∃ a b, l = [a, b] ∧ isDigitChar a = true ∧ isDigitChar b = true ∧
      10 * digitVal a + digitVal b = n := by
  match l with
  | [a, b] =>
    refine ⟨a, b, rfl, ?_⟩
    simp only [decodePair] at h
    split at h
    · next hd =>
      cases h
      exact ⟨hd.1, hd.2, rfl⟩
    · exact absurd h (by simp)
  | [] | [_] | _ :: _ :: _ :: _ => simp [decodePair] at h

/-- Rendering `h:m:s` with two-digit zero-padded components decodes to the
total second count. -/
theorem hmsValue_render (a b c : ℕ) (ha : a < 100) (hb : b < 60) (hc : c < 60) :
    hmsValue (padStart2 (natChars a) ++ ':' ::
        (padStart2 (natChars b) ++ ':' :: padStart2 (natChars c))) =
      some (3600 * a + 60 * b + c) := by
  obtain ⟨a1, a2, hae, ha1, ha2, hav⟩ := decodePair_inv (decodePair_pad a ha)
  obtain ⟨b1, b2, hbe, hb1, hb2, hbv⟩ := decodePair_inv (decodePair_pad b (by omega))
  obtain ⟨c1, c2, hce, hc1, hc2, hcv⟩ := decodePair_inv (decodePair_pad c (by omega))
  rw [hae, hbe, hce]
  show hmsValue [a1, a2, ':', b1, b2, ':', c1, c2] = _
  rw [hmsValue]
  rw [if_pos ⟨rfl, rfl, ha1, ha2, hb1, hb2, hc1, hc2⟩, hav, hbv, hcv]

/-- The rendered `secondsToHHMMSS` string decodes back to the floored
total (for totals below 100 hours, where zero-padding yields exactly two
digits per component). -/
theorem hmsValue_secondsToHHMMSS (q : ℚ)
    (ht : (max 0 q.floor).toNat < 360000) :
    hmsValue (secondsToHHMMSS q) = some ((max 0 q.floor).toNat) := by
  rw [secondsToHHMMSS]
  have h1 := hmsValue_render ((max 0 q.floor).toNat / 3600)
    (((max 0 q.floor).toNat % 3600) / 60) ((max 0 q.floor).toNat % 60)
    (by omega) (by omega) (by omega)
  rw [h1]
  congr 1
  have h2 := Nat.div_add_mod ((max 0 q.floor).toNat) 3600
  have h3 := Nat.div_add_mod ((max 0 q.floor).toNat % 3600) 60
  have h4 : (max 0 q.floor).toNat % 3600 % 60 = (max 0 q.floor).toNat % 60 :=
    Nat.mod_mod_of_dvd _ (by norm_num)
  omega

/-- Every whitespace character surviving `collapseWs` is the single
replacement space. -/
theorem collapseWsAux_ws_space :
    ∀ (cs : List Char) (flag : Bool) (c : Char), c ∈ collapseWsAux cs flag →
      jsWhitespace c = true → c = ' ' := by
  intro cs
  induction cs with
  | nil => intro flag c hc; simp [collapseWsAux] at hc
  | cons a rest ih =>
    intro flag c hc hws
    simp only [collapseWsAux] at hc
    by_cases ha : jsWhitespace a
    · rw [if_pos ha] at hc
      cases flag with
      | true => exact ih true c hc hws
      | false =>
        rw [if_neg (by simp)] at hc
        simp only [List.mem_cons] at hc
        rcases hc with rfl | hc
        · rfl
        · exact ih true c hc hws
    · rw [if_neg ha] at hc
      simp only [List.mem_cons] at hc
      rcases hc with rfl | hc
      · exact absurd hws (by simpa using ha)
      · exact ih false c hc hws

/-- After a replacement space has just been emitted (`flag = true`), the
next emitted character is not whitespace. -/
theorem collapseWsAux_head_true :
    ∀ (cs : List Char) (c : Char), (collapseWsAux cs true).head? = some c →
      jsWhitespace c = false := by
  intro cs
  induction cs with
  | nil => intro c hc; simp [collapseWsAux] at hc
  | cons a rest ih =>
    intro c hc
    simp only [collapseWsAux] at hc
    by_cases ha : jsWhitespace a
    · rw [if_pos ha] at hc
      exact ih c hc
    · rw [if_neg ha] at hc
      simp only [List.head?_cons, Option.some.injEq] at hc
      subst hc
      simpa using ha

/-- `collapseWs` output never has two adjacent whitespace characters. -/
theorem collapseWsAux_chain :
    ∀ (cs : List Char) (flag : Bool),
      (collapseWsAux cs flag).Chain'
        (fun a b => ¬(jsWhitespace a = true ∧ jsWhitespace b = true)) := by
  intro cs
  induction cs with
  | nil => intro flag; exact List.chain'_nil
  | cons a rest ih =>
    intro flag
    simp only [collapseWsAux]
    by_cases ha : jsWhitespace a
    · rw [if_pos ha]
      cases flag with
      | true => rw [if_pos rfl]; exact ih true
      | false =>
        rw [if_neg (by simp), List.chain'_cons']
        refine ⟨fun y hy => ?_, ih true⟩
        intro ⟨_, hyw⟩
        rw [collapseWsAux_head_true rest y hy] at hyw
        cases hyw
    · rw [if_neg ha]
      rw [List.chain'_cons']
      refine ⟨fun y hy h => ?_, ih false⟩
      rw [h.1] at ha
      exact ha rfl

/-- `collapseWs` keeps the non-whitespace characters unchanged. -/
theorem collapseWsAux_filter :
    ∀ (cs : List Char) (flag : Bool),
      (collapseWsAux cs flag).filter (fun c => !jsWhitespace c) =
        cs.filter (fun c => !jsWhitespace c) := by
  intro cs
  induction cs with
  | nil => intro flag; rfl
  | cons a rest ih =>
    intro flag
    simp only [collapseWsAux]
    by_cases ha : jsWhitespace a
    · rw [if_pos ha]
      cases flag with
      | true => rw [if_pos rfl, ih true, List.filter_cons, if_neg (by simp [ha])]
      | false =>
        rw [if_neg (by simp), List.filter_cons, if_neg (by decide), ih true,
          List.filter_cons, if_neg (by simp [ha])]
    · rw [if_neg ha, List.filter_cons, if_pos (by simpa using ha),
        List.filter_cons, if_pos (by simpa using ha), ih false]

/-- The head surviving `dropWhile p` does not satisfy `p`. -/
theorem head?_dropWhile_false {p : Char → Bool} :
    ∀ (l : List Char) (c : Char), (l.dropWhile p).head? = some c → p c = false := by
  intro l
  induction l with
  | nil => intro c h; cases h
  | cons a rest ih =>
    intro c h
    by_cases ha : p a
    · rw [List.dropWhile_cons, if_pos ha] at h
      exact ih c h
    · rw [List.dropWhile_cons, if_neg ha] at h
      cases h
      simpa using ha

/-- `dropWhile` keeps the last element (when anything survives). -/
theorem getLast?_dropWhile_ne_nil {p : Char → Bool} (l : List Char)
    (h : l.dropWhile p ≠ []) : (l.dropWhile p).getLast? = l.getLast? := by
  conv_rhs => rw [← List.takeWhile_append_dropWhile p l]
  exact (List.getLast?_append_of_ne_nil _ h).symm

/-- The head of the trimmed string is not whitespace. -/
theorem trimWs_head (l : List Char) (c : Char)
    (h : (trimWs l).head? = some c) : jsWhitespace c = false := by
  unfold trimWs at h
  rw [List.head?_reverse] at h
  by_cases hne :
      ((l.dropWhile jsWhitespace).reverse).dropWhile jsWhitespace = []
  · rw [hne] at h; cases h
  · rw [getLast?_dropWhile_ne_nil _ hne, List.getLast?_reverse] at h
    exact head?_dropWhile_false l c h

/-- The last character of the trimmed string is not whitespace. -/
theorem trimWs_getLast (l : List Char) (c : Char)
    (h : (trimWs l).getLast? = some c) : jsWhitespace c = false := by
  unfold trimWs at h
  rw [List.getLast?_reverse] at h
  exact head?_dropWhile_false _ c h

/-- `trimWs` only removes characters. -/
theorem trimWs_subset (l : List Char) {c : Char} (h : c ∈ trimWs l) : c ∈ l := by
  unfold trimWs at h
  rw [List.mem_reverse] at h
  have h2 := (List.dropWhile_sublist _).subset h
  rw [List.mem_reverse] at h2
  exact (List.dropWhile_sublist _).subset h2

/-- `Chain'` survives `dropWhile`. -/
theorem chain'_dropWhile {R : Char → Char → Prop} {p : Char → Bool}
    {l : List Char} (h : l.Chain' R) : (l.dropWhile p).Chain' R := by
  rw [← List.takeWhile_append_dropWhile p l] at h
  exact (List.chain'_append.mp h).2.1

/-- A symmetric `Chain'` survives `reverse`. -/
theorem chain'_reverse_no_double_ws {l : List Char}
    (h : l.Chain' (fun a b => ¬(jsWhitespace a = true ∧ jsWhitespace b = true))) :
    l.reverse.Chain' (fun a b => ¬(jsWhitespace a = true ∧ jsWhitespace b = true)) := by
  rw [List.chain'_reverse]
  exact h.imp (fun a b hab => fun hx => hab ⟨hx.2, hx.1⟩)

/-- A symmetric `Chain'` survives `trimWs`. -/
theorem trimWs_chain {l : List Char}
    (h : l.Chain' (fun a b => ¬(jsWhitespace a = true ∧ jsWhitespace b = true))) :
    (trimWs l).Chain'
      (fun a b => ¬(jsWhitespace a = true ∧ jsWhitespace b = true)) := by
  unfold trimWs
  exact chain'_reverse_no_double_ws
    (chain'_dropWhile (chain'_reverse_no_double_ws (chain'_dropWhile h)))

/-- Dropping a whitespace run does not change the non-whitespace
characters. -/
theorem filter_dropWhile_not_ws (l : List Char) :
    (l.dropWhile jsWhitespace).filter (fun c => !jsWhitespace c) =
      l.filter (fun c => !jsWhitespace c) := by
  conv_rhs => rw [← List.takeWhile_append_dropWhile jsWhitespace l]
  rw [List.filter_append]
  have hnil : (l.takeWhile jsWhitespace).filter (fun c => !jsWhitespace c) = [] := by
    rw [List.filter_eq_nil_iff]
    intro a ha
    simp [List.mem_takeWhile_imp ha]
  rw [hnil, List.nil_append]

/-- `trimWs` does not change the non-whitespace characters. -/
theorem trimWs_filter (l : List Char) :
    (trimWs l).filter (fun c => !jsWhitespace c) =
      l.filter (fun c => !jsWhitespace c) := by
  unfold trimWs
  rw [List.filter_reverse, filter_dropWhile_not_ws, List.filter_reverse,
    List.reverse_reverse, filter_dropWhile_not_ws]

/-- Combined canonicalization facts for `sanitizeCsvText`: trimmed at both
ends, whitespace collapsed to single spaces, non-whitespace characters
untouched. -/
theorem sanitizeCsvText_spec (cs : List Char) :
    (∀ c, (sanitizeCsvText cs).head? = some c → jsWhitespace c = false) ∧
    (∀ c, (sanitizeCsvText cs).getLast? = some c → jsWhitespace c = false) ∧
    (∀ c ∈ sanitizeCsvText cs, jsWhitespace c = true → c = ' ') ∧
    (sanitizeCsvText cs).Chain'
      (fun a b => ¬(jsWhitespace a = true ∧ jsWhitespace b = true)) ∧
    (sanitizeCsvText cs).filter (fun c => !jsWhitespace c) =
      cs.filter (fun c => !jsWhitespace c) := by
  refine ⟨fun c h => trimWs_head _ c h, fun c h => trimWs_getLast _ c h,
    fun c hc hws => ?_, ?_, ?_⟩
  · exact collapseWsAux_ws_space cs false c (trimWs_subset _ hc) hws
  · exact trimWs_chain (collapseWsAux_chain cs false)
  · rw [sanitizeCsvText, trimWs_filter, collapseWs, collapseWsAux_filter]

/-- **C9.** Canonical Row derivation: both timestamps are the cue's
millisecond offsets divided by 1000 and floored (never rounded up),
rendered as zero-padded `HH:MM:SS` (witnessed by `hmsValue`, which decodes
only well-padded strings); the text has every whitespace run collapsed to
one space and is trimmed, leaving non-whitespace characters untouched. -/
theorem cueToRow_spec (c : Cue) (hs : c.fromMs < 360000000)
    (he : c.toMs < 360000000) :
    hmsValue (cueToRow c).start_hhmmss = some (c.fromMs / 1000) ∧
    hmsValue (cueToRow c).end_hhmmss = some (c.toMs / 1000) ∧
    (∀ ch, ((cueToRow c).text).head? = some ch → jsWhitespace ch = false) ∧
    (∀ ch, ((cueToRow c).text).getLast? = some ch → jsWhitespace ch = false) ∧
    (∀ ch ∈ (cueToRow c).text, jsWhitespace ch = true → ch = ' ') ∧
    ((cueToRow c).text).Chain'
      (fun a b => ¬(jsWhitespace a = true ∧ jsWhitespace b = true)) ∧
    ((cueToRow c).text).filter (fun ch => !jsWhitespace ch) =
      c.text.data.filter (fun ch => !jsWhitespace ch) := by
  have hsan := sanitizeCsvText_spec c.text.data
  have h1 : hmsValue (secondsToHHMMSS ((c.fromMs : ℚ) / 1000)) =
      some (c.fromMs / 1000) := by
    rw [hmsValue_secondsToHHMMSS _ (by rw [total_of_ms]; omega), total_of_ms]
  have h2 : hmsValue (secondsToHHMMSS ((c.toMs : ℚ) / 1000)) =
      some (c.toMs / 1000) := by
    rw [hmsValue_secondsToHHMMSS _ (by rw [total_of_ms]; omega), total_of_ms]
  exact ⟨h1, h2, hsan.1, hsan.2.1, hsan.2.2.1, hsan.2.2.2.1, hsan.2.2.2.2⟩

/-- Witness for C9 at a concrete cue (1 h 2 min 3.9 s start). -/
theorem cueToRow_spec_witness :
    hmsValue (cueToRow ⟨3723900, 60000, " a  b "⟩).start_hhmmss =
      some (3723900 / 1000) :=
  (cueToRow_spec ⟨3723900, 60000, " a  b "⟩ (by decide) (by decide)).1

namespace TokenTracker

/-- Sums of filtered token lists grow with the filter. -/
theorem filter_map_sum_le {α : Type} (f : α → ℕ) (p q : α → Bool) :
    ∀ l : List α, (∀ x ∈ l, p x = true → q x = true) →
      ((l.filter p).map f).sum ≤ ((l.filter q).map f).sum := by
  intro l
  induction l with
  | nil => intro _; exact le_refl 0
  | cons a rest ih =>
    intro h
    have hrest := ih (fun x hx => h x (List.mem_cons_of_mem a hx))
    by_cases hq : q a = true
    · by_cases hp : p a = true
      · rw [List.filter_cons, if_pos hp, List.filter_cons, if_pos hq]
        simpa using Nat.add_le_add_left hrest (f a)
      · rw [List.filter_cons, if_neg hp, List.filter_cons, if_pos hq]
        simp only [List.map_cons, List.sum_cons]
        omega
    · have hp : ¬p a = true := fun hp => hq (h a (List.mem_cons_self a rest) hp)
      rw [List.filter_cons, if_neg hp, List.filter_cons, if_neg hq]
      exact hrest

/-- `windowSum` distributes over append. -/
theorem windowSum_append (T : ℕ) (l₁ l₂ : List (ℕ × ℕ)) :
    windowSum T (l₁ ++ l₂) = windowSum T l₁ + windowSum T l₂ := by
  simp [windowSum, List.filter_append]

/-- Re-filtering with a stronger predicate ignores the earlier filter. -/
theorem filter_filter_imp {α : Type} (p q : α → Bool)
    (hpq : ∀ a, p a = true → q a = true) :
    ∀ l : List α, (l.filter q).filter p = l.filter p := by
  intro l
  induction l with
  | nil => rfl
  | cons a rest ih =>
    by_cases hq : q a = true
    · rw [List.filter_cons, if_pos hq, List.filter_cons, List.filter_cons, ih]
    · have hp : ¬p a = true := fun hp => hq (hpq a hp)
      rw [List.filter_cons, if_neg hq, List.filter_cons, if_neg hp, ih]

/-- Cleaning up at an earlier instant never changes a later usage query
(pruned entries are outside every later window). -/
theorem cleanup_cleanup {now T : ℕ} (h : now ≤ T) (l : List Entry) :
    cleanup T (cleanup now l) = cleanup T l := by
  unfold cleanup
  apply filter_filter_imp
  intro a ha
  simp only [decide_eq_true_eq] at ha ⊢
  omega

/-- `getUsage` after an earlier `cleanup` is unchanged. -/
theorem getUsage_cleanup {now T : ℕ} (h : now ≤ T) (l : List Entry) :
    getUsage T (cleanup now l) = getUsage T l := by
  unfold getUsage
  rw [cleanup_cleanup h]

/-- `getUsage` of a snoc. -/
theorem getUsage_append (T : ℕ) (l : List Entry) (e : Entry) :
    getUsage T (l ++ [e]) =
      getUsage T l + (if T < e.timestamp + 60000 then e.tokens else 0) := by
  unfold getUsage cleanup
  rw [List.filter_append]
  by_cases hT : T < e.timestamp + 60000
  · rw [List.filter_cons]
    simp [hT]
  · rw [List.filter_cons]
    simp [hT]

/-- Main induction for C1: starting from a state that agrees with an
already-safe history, every honored run keeps all trailing windows within
capacity. -/
theorem honored_window_aux (cap : ℚ) :
    ∀ (events : List (ℕ × ℕ)) (st : List Entry) (hist : List (ℕ × ℕ)) (t : ℕ),
      TimesMono t events →
      HonoredRun cap events st →
      (∀ e ∈ st, e.timestamp ≤ t) →
      (∀ e ∈ hist, e.1 ≤ t) →
      (∀ T, t ≤ T → getUsage T st = windowSum T hist) →
      (∀ T, (windowSum T hist : ℚ) ≤ cap) →
      ∀ T, (windowSum T (hist ++ events) : ℚ) ≤ cap := by
  intro events
  induction events with
  | nil =>
    intro st hist t _ _ _ _ _ hcap T
    simpa using hcap T
  | cons ev rest ih =>
    obtain ⟨now, tok⟩ := ev
    intro st hist t hmono hhon hst hhist hagree hcap T
    obtain ⟨ht, hmono'⟩ := hmono
    obtain ⟨hcan, hhon'⟩ := hhon
    have hkey : (windowSum now hist : ℚ) + tok ≤ cap := by
      unfold canAdd at hcan
      rw [hagree now ht] at hcan
      exact hcan
    have hsingle : ∀ T', windowSum T' [(now, tok)] =
        (if now ≤ T' ∧ T' < now + 60000 then tok else 0) := by
      intro T'
      by_cases hin : now ≤ T' ∧ T' < now + 60000 <;> simp [windowSum, hin]
    have hcap' : ∀ T', (windowSum T' (hist ++ [(now, tok)]) : ℚ) ≤ cap := by
      intro T'
      rw [windowSum_append, hsingle T']
      by_cases hin : now ≤ T' ∧ T' < now + 60000
      · rw [if_pos hin]
        have hsub : windowSum T' hist ≤ windowSum now hist := by
          apply filter_map_sum_le
          intro x hx hpx
          simp only [decide_eq_true_eq] at hpx ⊢
          have := hhist x hx
          omega
        push_cast
        have : (windowSum T' hist : ℚ) ≤ (windowSum now hist : ℚ) := by
          exact_mod_cast hsub
        linarith
      · rw [if_neg hin]
        simpa using hcap T'
    have hagree' : ∀ T', now ≤ T' →
        getUsage T' (add now tok st) = windowSum T' (hist ++ [(now, tok)]) := by
      intro T' hT'
      unfold add
      rw [getUsage_cleanup hT', getUsage_append, windowSum_append,
        hagree T' (le_trans ht hT'), hsingle T']
      congr 1
      by_cases hlt : T' < now + 60000
      · rw [if_pos hlt, if_pos ⟨hT', hlt⟩]
      · rw [if_neg hlt, if_neg (fun hx => hlt hx.2)]
    have hst' : ∀ e ∈ add now tok st, e.timestamp ≤ now := by
      intro e he
      unfold add cleanup at he
      have hmem := (List.mem_filter.mp he).1
      rcases List.mem_append.mp hmem with hmem | hmem
      · exact le_trans (hst e hmem) ht
      · simp only [List.mem_singleton] at hmem
        rw [hmem]
    have hhist' : ∀ e ∈ hist ++ [(now, tok)], e.1 ≤ now := by
      intro e he
      rcases List.mem_append.mp he with he | he
      · exact le_trans (hhist e he) ht
      · simp only [List.mem_singleton] at he
        rw [he]
    have hres := ih (add now tok st) (hist ++ [(now, tok)]) now hmono' hhon'
      hst' hhist' hagree' hcap' T
    simpa [List.append_assoc] using hres

/-- **C1.** For every honored run of the tracker (each `add` immediately
preceded by a true `canAdd`, timestamps monotone), the total tokens of the
entries inside any trailing 60-second window never exceed the capacity
`maxTPM × 0.9`. -/
theorem window_invariant (maxTPM : ℕ) (events : List (ℕ × ℕ))
    (hmono : TimesMono 0 events)
    (hhon : HonoredRun (capacityOf maxTPM) events []) :
    ∀ T, (windowSum T events : ℚ) ≤ capacityOf maxTPM := by
  intro T
  have h := honored_window_aux (capacityOf maxTPM) events [] [] 0 hmono hhon
    (by intro e he; cases he) (by intro e he; cases he)
    (by intro T' _; rfl)
    (by
      intro T'
      have : (0 : ℚ) ≤ capacityOf maxTPM := by
        unfold capacityOf safetyMargin
        positivity
      simpa [windowSum] using this) T
  simpa using h

/-- Witness for C1: two honored adds filling the window to exactly the
90 % capacity. -/
theorem window_invariant_witness :
    (windowSum 30000 [(0, 50), (30000, 40)] : ℚ) ≤ capacityOf 100 := by
  have hu1 : getUsage 0 ([] : List Entry) = 0 := rfl
  have hu2 : getUsage 30000 (add 0 50 []) = 50 := by decide
  refine window_invariant 100 [(0, 50), (30000, 40)]
    ⟨Nat.zero_le 0, Nat.zero_le 30000, trivial⟩ ⟨?_, ?_, trivial⟩ 30000
  · show ((getUsage 0 [] : ℚ) + 50 ≤ capacityOf 100)
    rw [hu1]
    norm_num [capacityOf, safetyMargin]
  · show ((getUsage 30000 (add 0 50 []) : ℚ) + 40 ≤ capacityOf 100)
    rw [hu2]
    norm_num [capacityOf, safetyMargin]

end TokenTracker
